import Mathlib

/-!
The squared-exponential ARD kernel of limbo.

A shallow embedding of `limbo/kernel/squared_exp_ard.hpp` and
`limbo/model/gp/no_lf_opt.hpp`.

* `Eigen::VectorXd` is a `List` of scalars.
* The scalar type is a parameter `α` with its arithmetic, and `std::exp`, `std::log`
  are passed as the functions `exp` and `log`. Most theorems instantiate them with the
  real numbers, `Real.exp` and `Real.log`; where rounding, underflow or NaN decide a
  property, they are instantiated with `ieee.Double`, a model of the C++ type `double`
  (IEEE 754 binary64, round to nearest, ties to even).
* An operation returns `none` where the C++ code stops on an assertion
  (`assert`, or Eigen's size and index assertions).
-/

namespace limbo

namespace tools

/-- Modelled from the spec: `limbo::tools::make_vector` of `limbo/tools.hpp`, which is
not among the sources; it builds the vector whose only entry is its argument (the spec
gives the last gradient component as the single value `2·k`). -/
def make_vector {α : Type} (x : α) : List α := [x]

end tools

/-- Modelled from the spec: the part of the template argument `Params` that this kernel
names, `Params::kernel_squared_exp_ard`, with its two `BO_PARAM` entries `k` and
`sigma_sq`; the macro `BO_PARAM` (of `limbo/tools/macros.hpp`) is not among the
sources, it declares a constant accessor returning the given value. -/
structure Params (α : Type) where
  k : Int
  sigma_sq : α

namespace defaults

/-- The defaults `BO_PARAM(int, k, 0)` and `BO_PARAM(double, sigma_sq, 1)`. -/
def kernel_squared_exp_ard {α : Type} [Field α] : Params α := { k := 0, sigma_sq := 1 }

end defaults

namespace kernel

/-- Coefficient-wise difference `a - b` of two Eigen vectors (sizes must agree). -/
def vsub {α : Type} [Sub α] (a b : List α) : Option (List α) :=
  if a.length = b.length then some (List.zipWith (fun u v => u - v) a b) else none

/-- Eigen `a.cwiseQuotient(b)` (sizes must agree). -/
def cwiseQuotient {α : Type} [Div α] (a b : List α) : Option (List α) :=
  if a.length = b.length then some (List.zipWith (fun u v => u / v) a b) else none

/-- Eigen `v.array().square()`. -/
def square {α : Type} [Mul α] (v : List α) : List α := v.map (fun c => c * c)

/-- Eigen `v.sum()`. -/
def vsum {α : Type} [Add α] [Zero α] (v : List α) : α := v.sum

/-- Eigen `v.squaredNorm()`: the sum of the squared coefficients. -/
def squaredNorm {α : Type} [Add α] [Mul α] [Zero α] (v : List α) : α := (v.map (fun c => c * c)).sum

/-- The fields of `SquaredExpARD`. -/
structure SquaredExpARD (α : Type) where
  _sf2 : α
  _ell : List α
  _input_dim : Nat
  _h_params : List α

namespace SquaredExpARD

variable {α : Type} [Add α] [Sub α] [Mul α] [Div α] [Neg α] [Zero α] [OfNat α 2]
  [OfScientific α]

/-- `h_params_size()`: `_ell.size() + 1`. -/
def h_params_size (k : SquaredExpARD α) : Nat := k._ell.length + 1

/-- `h_params()`: a fresh vector of `_input_dim + 1` entries, the first `_input_dim`
being `_ell.array().log()` and the last `std::log(_sf2)`. -/
def h_params (log : α → α) (k : SquaredExpARD α) : Option (List α) :=
  if k._ell.length = k._input_dim then
    some (k._ell.map log ++ [log k._sf2])
  else none

/-- One iteration of the loop of `set_h_params`: `_ell(i) = std::exp(p(i))`. -/
def set_ell (exp : α → α) (p : List α) (ell : List α) (i : Nat) : Option (List α) :=
  match p[i]? with
  | some v => if i < ell.length then some (ell.set i (exp v)) else none
  | none => none

/-- `set_h_params(p)`: stores `p`, then `_ell(i) = std::exp(p(i))` for
`i < _input_dim`, then `_sf2 = std::exp(2 * p(_input_dim))`. -/
def set_h_params (exp : α → α) (k : SquaredExpARD α) (p : List α) :
    Option (SquaredExpARD α) :=
  match (List.range k._input_dim).foldlM (set_ell exp p) k._ell with
  | some ell =>
    match p[k._input_dim]? with
    | some v =>
      some { _sf2 := exp (2 * v), _ell := ell, _input_dim := k._input_dim, _h_params := p }
    | none => none
  | none => none

/-- The constructor `SquaredExpARD(dim)`: `_sf2(0), _ell(dim), _input_dim(dim)`, then
`set_h_params` on the zero vector of size `_ell.size() + 1`. -/
def construct (exp : α → α) (dim : Nat) : Option (SquaredExpARD α) :=
  let k0 : SquaredExpARD α :=
    { _sf2 := 0, _ell := List.replicate dim 0, _input_dim := dim, _h_params := [] }
  set_h_params exp k0 (List.replicate (k0._ell.length + 1) 0)

/-- `grad(x1, x2)`: `z = (x1 - x2).cwiseQuotient(_ell).array().square()`,
`k = _sf2 * std::exp(-0.5 * z.sum())`, then the first `_input_dim` entries of the
result are `z * k` (Eigen asserts that `z` has `_input_dim` entries) and the last one is
`make_vector(2 * k)`. -/
def grad (exp : α → α) (k : SquaredExpARD α) (x1 x2 : List α) : Option (List α) :=
  match vsub x1 x2 with
  | some d =>
    match cwiseQuotient d k._ell with
    | some q =>
      let z := square q
      let kv := k._sf2 * exp (-0.5 * vsum z)
      if z.length = k._input_dim then
        some (z.map (fun c => c * kv) ++ tools.make_vector (2 * kv))
      else none
    | none => none
  | none => none

/-- `operator()(x1, x2)`: after `assert(x1.size() == _ell.size())`,
`z = (x1 - x2).cwiseQuotient(_ell).squaredNorm()` and the result is
`_sf2 * std::exp(-0.5 * z)`. -/
def operator (exp : α → α) (k : SquaredExpARD α) (x1 x2 : List α) : Option α :=
  if x1.length = k._ell.length then
    match vsub x1 x2 with
    | some d =>
      match cwiseQuotient d k._ell with
      | some q =>
        let z := squaredNorm q
        some (k._sf2 * exp (-0.5 * z))
      | none => none
    | none => none
  else none

/-- `ell()`. -/
def ell (k : SquaredExpARD α) : List α := k._ell

/-- The kernel states reachable from `SquaredExpARD(D)` by calls of `set_h_params`
with vectors of `D + 1` entries. -/
inductive Reachable (exp : α → α) (D : Nat) : SquaredExpARD α → Prop
  | init (k : SquaredExpARD α) : construct exp D = some k → Reachable exp D k
  | step (k k' : SquaredExpARD α) (p : List α) : Reachable exp D k →
      p.length = D + 1 → set_h_params exp k p = some k' → Reachable exp D k'

/-- The constructor of `SquaredExpARD<Params>`: the body of `SquaredExpARD(dim)` reads
nothing of the template argument `Params`. -/
def construct_with (_params : Params α) (exp : α → α) (dim : Nat) :
    Option (SquaredExpARD α) :=
  construct exp dim

end SquaredExpARD

end kernel

namespace model

namespace gp

namespace NoLFOpt

/-- `NoLFOpt::operator()(GP&)`: the body is empty, the model is handed back as it
came. -/
def operator {GP : Type} (m : GP) : GP := m

end NoLFOpt

end gp

end model

namespace ieee

/-- The values of the C++ type `double` (IEEE 754 binary64): the NaNs (taken as one
value), the two infinities, the negative zero, and the finite values `fin q` with `q`
rational, `fin 0` being the positive zero. -/
inductive Double where
  | nan
  | pinf
  | ninf
  | nzero
  | fin (q : ℚ)

namespace Double

/-- The nearest integer, ties going to the even one. -/
def roundHalfEven {R : Type} [LinearOrderedField R] [FloorRing R] (y : R) : ℤ :=
  if y - ⌊y⌋ < 1 / 2 then ⌊y⌋
  else if 1 / 2 < y - ⌊y⌋ then ⌊y⌋ + 1
  else if ⌊y⌋ % 2 = 0 then ⌊y⌋ else ⌊y⌋ + 1

/-- Rounding of an exact result `r` to binary64, to nearest and ties to even: the
result is `m * 2 ^ e` with 53 bits for `m` and `e ≥ -1074`; at `2 ^ 1024` and beyond it
is an infinity, and a result that rounds to zero keeps the sign of `r`. -/
def round {R : Type} [LinearOrderedField R] [FloorRing R] (r : R) : Double :=
  let e : ℤ := max (Int.log 2 |r| - 52) (-1074)
  let m : ℤ := roundHalfEven (|r| / 2 ^ e)
  if (2 : ℚ) ^ (1024 : ℤ) ≤ m * 2 ^ e then (if r < 0 then ninf else pinf)
  else if m = 0 then (if r < 0 then nzero else fin 0)
  else fin (if r < 0 then -(m * 2 ^ e) else m * 2 ^ e)

/-- Whether the value is a NaN. -/
def isNaN : Double → Bool
  | nan => true
  | _ => false

/-- Whether the value is an infinity. -/
def isInf : Double → Bool
  | pinf => true
  | ninf => true
  | _ => false

/-- The sign bit. -/
def signBit : Double → Bool
  | ninf => true
  | nzero => true
  | fin q => decide (q < 0)
  | _ => false

/-- The rational value of a finite `double` (0 for the others). -/
def val : Double → ℚ
  | fin q => q
  | _ => 0

/-- The zero with the given sign bit. -/
def zero (s : Bool) : Double := if s then nzero else fin 0

/-- The infinity with the given sign bit. -/
def infty (s : Bool) : Double := if s then ninf else pinf

/-- Unary minus: the sign bit is flipped. -/
def neg : Double → Double
  | nan => nan
  | pinf => ninf
  | ninf => pinf
  | nzero => fin 0
  | fin q => if q = 0 then nzero else fin (-q)

/-- Addition: `inf + -inf` is a NaN, an exact sum zero is `+0` unless both terms are
`-0`, any other sum is rounded. -/
def add (x y : Double) : Double :=
  if isNaN x || isNaN y then nan
  else if isInf x then (if isInf y && (signBit x != signBit y) then nan else x)
  else if isInf y then y
  else if val x + val y = 0 then zero (signBit x && signBit y)
  else round (val x + val y)

/-- Subtraction, `x + (-y)`. -/
def sub (x y : Double) : Double := add x (neg y)

/-- Multiplication: `inf * 0` is a NaN, the sign bit of the result is the exclusive or
of the sign bits. -/
def mul (x y : Double) : Double :=
  if isNaN x || isNaN y then nan
  else if isInf x then (if !isInf y && val y = 0 then nan else infty (signBit x != signBit y))
  else if isInf y then (if val x = 0 then nan else infty (signBit x != signBit y))
  else if val x * val y = 0 then zero (signBit x != signBit y)
  else round (val x * val y)

/-- Division: `0 / 0` and `inf / inf` are NaNs, a non-zero value divided by a zero is
an infinity. -/
def div (x y : Double) : Double :=
  if isNaN x || isNaN y then nan
  else if isInf x then (if isInf y then nan else infty (signBit x != signBit y))
  else if isInf y then zero (signBit x != signBit y)
  else if val y = 0 then
    (if val x = 0 then nan else infty (signBit x != signBit y))
  else if val x = 0 then zero (signBit x != signBit y)
  else round (val x / val y)

/-- The function `std::exp` on `double`, from the exponential `rexp` on the rationals:
the exact value rounded to binary64, so that a result below half of the least positive
`double` underflows to `+0`; `exp(-inf) = +0`, `exp(+inf) = +inf`. -/
def exp {R : Type} [LinearOrderedField R] [FloorRing R] (rexp : ℚ → R) : Double → Double
  | nan => nan
  | pinf => pinf
  | ninf => fin 0
  | nzero => round (rexp 0)
  | fin q => round (rexp q)

instance : Add Double := ⟨add⟩

instance : Sub Double := ⟨sub⟩

instance : Mul Double := ⟨mul⟩

instance : Div Double := ⟨div⟩

instance : Neg Double := ⟨neg⟩

instance : Zero Double := ⟨fin 0⟩

instance : OfNat Double 2 := ⟨fin 2⟩

/-- A decimal literal is the nearest `double`. -/
instance : OfScientific Double :=
  ⟨fun m s e => round (OfScientific.ofScientific m s e : ℚ)⟩

end Double

end ieee

/-! Auxiliary facts about the embedding. -/

namespace kernel

namespace SquaredExpARD

variable {α : Type}

/-- After `m` iterations the loop of `set_h_params` has overwritten the first `m`
entries of `_ell`. -/
theorem foldlM_set_ell (exp : α → α) (p ell : List α) (m : Nat)
    (hp : m ≤ p.length) (hl : m ≤ ell.length) :
    (List.range m).foldlM (set_ell exp p) ell
      = some ((p.take m).map exp ++ ell.drop m) := by
  induction m with
  | zero => simp
  | succ m ih =>
    have hm : m < p.length := hp
    have hm2 : m < ell.length := hl
    rw [List.range_succ, List.foldlM_append, ih (Nat.le_of_lt hm) (Nat.le_of_lt hm2)]
    simp only [Option.some_bind, List.foldlM_cons, List.foldlM_nil, set_ell,
      List.getElem?_eq_getElem hm]
    have hlen : m < ((p.take m).map exp ++ ell.drop m).length := by
      simp; omega
    simp only [hlen, if_true, Option.some_bind, Option.bind_eq_bind, pure]
    congr 1
    apply List.ext_getElem
    · simp; omega
    · intro i h1 h2
      simp only [List.getElem_set]
      by_cases him : m = i
      · subst him
        simp [List.getElem_append_left, hm]
      · simp only [him, if_false]
        by_cases hlt : i < m
        · rw [List.getElem_append_left (by simp; omega),
            List.getElem_append_left (by simp; omega)]
          simp
        · have hgt : m < i := by omega
          rw [List.getElem_append_right (by simp; omega),
            List.getElem_append_right (by simp; omega)]
          simp
          congr 1
          have : min m p.length = m := by omega
          have : min (m+1) p.length = m + 1 := by omega
          omega

/-- The state `set_h_params` leaves behind when `p` has more than `_input_dim`
entries. -/
theorem set_h_params_eq [Field α] (exp : α → α) (k : SquaredExpARD α) (p : List α)
    (hk : k._ell.length = k._input_dim) (hp : k._input_dim < p.length) :
    set_h_params exp k p
      = some { _sf2 := exp (2 * p.getD k._input_dim 0),
               _ell := (p.take k._input_dim).map exp,
               _input_dim := k._input_dim,
               _h_params := p } := by
  unfold set_h_params
  rw [foldlM_set_ell exp p k._ell k._input_dim (Nat.le_of_lt hp) (Nat.le_of_eq hk.symm)]
  have hdrop : k._ell.drop k._input_dim = [] := by
    rw [List.drop_eq_nil_iff]; omega
  simp only [List.getElem?_eq_getElem hp, hdrop, List.append_nil]
  congr 3
  simp [List.getD_eq_getElem?_getD, List.getElem?_eq_getElem hp]

/-- The constructor succeeds and leaves the state of `set_h_params` on the zero
vector. -/
theorem construct_eq [Field α] (exp : α → α) (D : Nat) :
    construct exp D
      = some { _sf2 := exp (2 * (List.replicate (D + 1) (0 : α)).getD D 0),
               _ell := ((List.replicate (D + 1) (0 : α)).take D).map exp,
               _input_dim := D,
               _h_params := List.replicate (D + 1) 0 } := by
  unfold construct
  simp only []
  rw [set_h_params_eq exp _ _ (by simp) (by simp)]
  simp

/-- Every reachable state is the state left by `set_h_params` on some vector of
`D + 1` entries. -/
theorem Reachable.shape [Field α] {exp : α → α} {D : Nat} {k : SquaredExpARD α}
    (h : Reachable exp D k) :
    ∃ p : List α, p.length = D + 1 ∧
      k = { _sf2 := exp (2 * p.getD D 0), _ell := (p.take D).map exp,
            _input_dim := D, _h_params := p } := by
  induction h with
  | init k hk =>
    refine ⟨List.replicate (D + 1) 0, by simp, ?_⟩
    rw [construct_eq] at hk
    exact (Option.some.inj hk).symm
  | step k k' p _ hp hs ih =>
    obtain ⟨q, hq, rfl⟩ := ih
    refine ⟨p, hp, ?_⟩
    rw [set_h_params_eq exp _ p (by simp; omega) (by simp; omega)] at hs
    exact (Option.some.inj hs).symm

/-- The squared norm of the scaled difference, as a sum over the indices. -/
theorem squaredNorm_quot [Field α] (n : Nat) (x1 x2 l : List α)
    (h1 : x1.length = n) (h2 : x2.length = n) (h3 : l.length = n) :
    squaredNorm (List.zipWith (fun u v => u / v) (List.zipWith (fun u v => u - v) x1 x2) l)
      = ∑ i ∈ Finset.range n, ((x1.getD i 0 - x2.getD i 0) / l.getD i 0) ^ 2 := by
  induction n generalizing x1 x2 l with
  | zero =>
    have : x1 = [] := List.length_eq_zero.mp h1
    subst this
    simp [squaredNorm]
  | succ n ih =>
    match x1, x2, l, h1, h2, h3 with
    | a :: x1, b :: x2, c :: l, h1, h2, h3 =>
      have e := ih x1 x2 l (by simpa using h1) (by simpa using h2) (by simpa using h3)
      rw [Finset.sum_range_succ']
      simp only [squaredNorm, List.zipWith_cons_cons, List.map_cons, List.sum_cons,
        List.getD_cons_succ, List.getD_cons_zero] at e ⊢
      rw [e]
      ring

/-- The value of `operator()` on vectors of the size of `_ell`. -/
theorem operator_eq (k : SquaredExpARD ℝ) (D : Nat) (x1 x2 : List ℝ)
    (hk : k._ell.length = D) (h1 : x1.length = D) (h2 : x2.length = D) :
    operator Real.exp k x1 x2
      = some (k._sf2 * Real.exp (-(1 / 2) *
          ∑ i ∈ Finset.range D, ((x1.getD i 0 - x2.getD i 0) / k._ell.getD i 0) ^ 2)) := by
  have hh : (-0.5 : ℝ) = -(1 / 2) := by norm_num
  simp only [operator, vsub, cwiseQuotient, h1, h2, hk, if_true, List.length_zipWith,
    Nat.min_self, squaredNorm_quot D x1 x2 k._ell h1 h2 hk, hh]

/-- An entry of a coefficient-wise combination of two vectors of `n` entries. -/
theorem getElem?_zipWith_getD [Field α] (f : α → α → α) (n i : Nat) (a b : List α)
    (ha : a.length = n) (hb : b.length = n) (hi : i < n) :
    (List.zipWith f a b)[i]? = some (f (a.getD i 0) (b.getD i 0)) := by
  have h1 : i < a.length := by omega
  have h2 : i < b.length := by omega
  simp [List.getElem?_zipWith, List.getD_eq_getElem?_getD, List.getElem?_eq_getElem, h1, h2]

/-- The entries of the length-scales written by `set_h_params`. -/
theorem getElem?_map_take [Field α] (exp : α → α) (p : List α) (D i : Nat)
    (hp : D < p.length) (hi : i < D) :
    ((p.take D).map exp)[i]? = some (exp (p.getD i 0)) := by
  have h1 : i < p.length := by omega
  simp [List.getElem?_take, hi, List.getD_eq_getElem?_getD, List.getElem?_eq_getElem, h1]

/-- The vector returned by `grad` on vectors of the size of `_ell`. -/
theorem grad_eq (k : SquaredExpARD ℝ) (D : Nat) (x1 x2 : List ℝ)
    (hk : k._ell.length = D) (hd : k._input_dim = D)
    (h1 : x1.length = D) (h2 : x2.length = D) :
    ∃ g : List ℝ, grad Real.exp k x1 x2 = some g ∧ g.length = D + 1 ∧
      (∀ i, i < D → g[i]? = some (((x1.getD i 0 - x2.getD i 0) / k._ell.getD i 0) ^ 2 *
        (k._sf2 * Real.exp (-(1 / 2) *
          ∑ m ∈ Finset.range D, ((x1.getD m 0 - x2.getD m 0) / k._ell.getD m 0) ^ 2)))) ∧
      g[D]? = some (2 * (k._sf2 * Real.exp (-(1 / 2) *
          ∑ m ∈ Finset.range D, ((x1.getD m 0 - x2.getD m 0) / k._ell.getD m 0) ^ 2))) := by
  have hh : (-0.5 : ℝ) = -(1 / 2) := by norm_num
  have hs : vsum (square (List.zipWith (fun u v => u / v)
      (List.zipWith (fun u v => u - v) x1 x2) k._ell))
      = ∑ m ∈ Finset.range D, ((x1.getD m 0 - x2.getD m 0) / k._ell.getD m 0) ^ 2 :=
    squaredNorm_quot D x1 x2 k._ell h1 h2 hk
  have hlen : (square (List.zipWith (fun u v => u / v)
      (List.zipWith (fun u v => u - v) x1 x2) k._ell)).length = D := by
    simp [square, h1, h2, hk]
  refine ⟨(square (List.zipWith (fun u v => u / v)
      (List.zipWith (fun u v => u - v) x1 x2) k._ell)).map (fun c => c *
        (k._sf2 * Real.exp (-(1 / 2) *
          ∑ m ∈ Finset.range D, ((x1.getD m 0 - x2.getD m 0) / k._ell.getD m 0) ^ 2)))
      ++ tools.make_vector (2 * (k._sf2 * Real.exp (-(1 / 2) *
          ∑ m ∈ Finset.range D, ((x1.getD m 0 - x2.getD m 0) / k._ell.getD m 0) ^ 2))),
    ?_, ?_, ?_, ?_⟩
  · simp only [grad, vsub, cwiseQuotient, h1, h2, hk, hd, if_true, List.length_zipWith,
      Nat.min_self, hs, hh, hlen]
  · simp [tools.make_vector, hlen]
  · intro i hi
    have hq : (List.zipWith (fun u v => u / v)
        (List.zipWith (fun u v => u - v) x1 x2) k._ell)[i]?
        = some ((x1.getD i 0 - x2.getD i 0) / k._ell.getD i 0) := by
      have e := getElem?_zipWith_getD (fun u v : ℝ => u / v) D i
        (List.zipWith (fun u v => u - v) x1 x2) k._ell (by simp [h1, h2]) hk hi
      rw [e]
      have e2 := getElem?_zipWith_getD (fun u v : ℝ => u - v) D i x1 x2 h1 h2 hi
      simp [List.getD_eq_getElem?_getD, e2]
    rw [List.getElem?_append_left (by simp [hlen, hi])]
    simp only [square, List.map_map, List.getElem?_map, hq, Option.map_some', Function.comp]
    congr 1
    ring
  · rw [List.getElem?_append_right (by simp [hlen])]
    simp [hlen, tools.make_vector]

/-- The length-scale `i` written by `set_h_params`, read with a default. -/
theorem getD_map_take [Field α] (exp : α → α) (p : List α) (D i : Nat)
    (hp : D < p.length) (hi : i < D) :
    ((p.take D).map exp).getD i 0 = exp (p.getD i 0) := by
  rw [List.getD_eq_getElem?_getD, getElem?_map_take exp p D i hp hi]
  rfl

/-- An entry of a vector after one entry was replaced. -/
theorem getD_set (p : List ℝ) (j i : Nat) (t : ℝ) (hj : j < p.length) :
    (p.set j t).getD i 0 = if i = j then t else p.getD i 0 := by
  simp only [List.getD_eq_getElem?_getD, List.getElem?_set]
  by_cases h : j = i
  · subst h; simp [hj]
  · have : ¬ i = j := fun e => h e.symm
    simp [h, this]

/-- The value of `operator()` on the state left by `set_h_params(q)`. -/
theorem operator_after_set (k : SquaredExpARD ℝ) (D : Nat) (q x1 x2 : List ℝ)
    (hk : k._ell.length = D) (hd : k._input_dim = D) (hq : q.length = D + 1)
    (h1 : x1.length = D) (h2 : x2.length = D) :
    (set_h_params Real.exp k q).bind (fun k' => operator Real.exp k' x1 x2)
      = some (Real.exp (2 * q.getD D 0) * Real.exp (-(1 / 2) *
          ∑ i ∈ Finset.range D,
            ((x1.getD i 0 - x2.getD i 0) / Real.exp (q.getD i 0)) ^ 2)) := by
  subst hd
  rw [set_h_params_eq Real.exp k q hk (by omega), Option.some_bind,
    operator_eq _ k._input_dim x1 x2 (by simp; omega) h1 h2]
  congr 4
  apply Finset.sum_congr rfl
  intro i hi
  rw [getD_map_take Real.exp q k._input_dim i (by omega) (Finset.mem_range.mp hi)]

/-- The derivative of one term of the scaled squared distance with respect to the
log length-scale `j`. -/
theorem hasDerivAt_term (d : ℝ) (P : Nat → ℝ) (i j : Nat) :
    HasDerivAt (fun t : ℝ => (d / Real.exp (if i = j then t else P i)) ^ 2)
      (if i = j then -2 * (d / Real.exp (P j)) ^ 2 else 0) (P j) := by
  by_cases hij : i = j
  · simp only [hij, if_true]
    have h := ((hasDerivAt_const (P j) d).div (Real.hasDerivAt_exp (P j))
      (Real.exp_ne_zero _)).pow 2
    convert h using 1
    have hne : Real.exp (P j) ≠ 0 := Real.exp_ne_zero _
    field_simp
    ring
  · simp only [hij, if_false]
    exact hasDerivAt_const _ _

/-- The derivative of the covariance with respect to the log-space parameter `j`. -/
theorem hasDerivAt_cov (D : Nat) (d P : Nat → ℝ) (j : Nat) :
    HasDerivAt
      (fun t : ℝ => Real.exp (2 * (if D = j then t else P D)) * Real.exp (-(1 / 2) *
        ∑ i ∈ Finset.range D, (d i / Real.exp (if i = j then t else P i)) ^ 2))
      (if j < D then
        (d j / Real.exp (P j)) ^ 2 * (Real.exp (2 * P D) * Real.exp (-(1 / 2) *
          ∑ i ∈ Finset.range D, (d i / Real.exp (P i)) ^ 2))
       else if j = D then
        2 * (Real.exp (2 * P D) * Real.exp (-(1 / 2) *
          ∑ i ∈ Finset.range D, (d i / Real.exp (P i)) ^ 2))
       else 0) (P j) := by
  have hS : HasDerivAt
      (fun t : ℝ => ∑ i ∈ Finset.range D, (d i / Real.exp (if i = j then t else P i)) ^ 2)
      (∑ i ∈ Finset.range D, (if i = j then -2 * (d i / Real.exp (P j)) ^ 2 else 0))
      (P j) := by
    exact HasDerivAt.sum (fun i _ => hasDerivAt_term (d i) P i j)
  have hA : HasDerivAt (fun t : ℝ => Real.exp (2 * (if D = j then t else P D)))
      (if D = j then 2 * Real.exp (2 * P D) else 0) (P j) := by
    by_cases hDj : D = j
    · simp only [hDj, if_true]
      have h := ((hasDerivAt_id (P j)).const_mul 2).exp
      convert h using 1
      simp
      ring
    · simp only [hDj, if_false]
      exact hasDerivAt_const _ _
  have hf := hA.mul ((hS.const_mul (-(1 / 2) : ℝ)).exp)
  have hval : ∀ i, (if i = j then P j else P i) = P i := by
    intro i
    by_cases hij : i = j
    · simp [hij]
    · simp [hij]
  convert hf using 1
  simp only [hval]
  by_cases hlt : j < D
  · have hDj : ¬ D = j := by omega
    simp only [hlt, if_true, hDj, if_false, zero_mul, zero_add,
      Finset.sum_ite_eq', Finset.mem_range]
    ring
  · by_cases hDj : j = D
    · subst hDj
      have hz : ∀ i ∈ Finset.range j,
          (if i = j then -2 * (d i / Real.exp (P j)) ^ 2 else 0) = (0 : ℝ) := by
        intro i hi
        have : ¬ i = j := by
          have := Finset.mem_range.mp hi
          omega
        simp [this]
      simp only [lt_irrefl, if_false, if_true, Finset.sum_congr rfl hz,
        Finset.sum_const_zero]
      ring
    · have hDj2 : ¬ D = j := fun e => hDj e.symm
      have hz : ∀ i ∈ Finset.range D,
          (if i = j then -2 * (d i / Real.exp (P j)) ^ 2 else 0) = (0 : ℝ) := by
        intro i hi
        have : ¬ i = j := by
          have := Finset.mem_range.mp hi
          omega
        simp [this]
      simp only [hlt, hDj, hDj2, if_false, Finset.sum_congr rfl hz, Finset.sum_const_zero]
      ring

/-- The vector returned by `grad` on the state left by `set_h_params(q)`. -/
theorem grad_after_set (k : SquaredExpARD ℝ) (D : Nat) (q x1 x2 : List ℝ)
    (hk : k._ell.length = D) (hd : k._input_dim = D) (hq : q.length = D + 1)
    (h1 : x1.length = D) (h2 : x2.length = D) :
    ∃ g : List ℝ,
      (set_h_params Real.exp k q).bind (fun k' => grad Real.exp k' x1 x2) = some g ∧
      g.length = D + 1 ∧
      (∀ i, i < D → g[i]? = some (((x1.getD i 0 - x2.getD i 0) / Real.exp (q.getD i 0)) ^ 2 *
        (Real.exp (2 * q.getD D 0) * Real.exp (-(1 / 2) *
          ∑ m ∈ Finset.range D,
            ((x1.getD m 0 - x2.getD m 0) / Real.exp (q.getD m 0)) ^ 2)))) ∧
      g[D]? = some (2 * (Real.exp (2 * q.getD D 0) * Real.exp (-(1 / 2) *
          ∑ m ∈ Finset.range D,
            ((x1.getD m 0 - x2.getD m 0) / Real.exp (q.getD m 0)) ^ 2))) := by
  subst hd
  have hsum : ∑ m ∈ Finset.range k._input_dim,
      ((x1.getD m 0 - x2.getD m 0) / ((q.take k._input_dim).map Real.exp).getD m 0) ^ 2
      = ∑ m ∈ Finset.range k._input_dim,
      ((x1.getD m 0 - x2.getD m 0) / Real.exp (q.getD m 0)) ^ 2 := by
    apply Finset.sum_congr rfl
    intro i hi
    rw [getD_map_take Real.exp q k._input_dim i (by omega) (Finset.mem_range.mp hi)]
  obtain ⟨g, hg, hlen, hi, hD⟩ := grad_eq
    { _sf2 := Real.exp (2 * q.getD k._input_dim 0),
      _ell := (q.take k._input_dim).map Real.exp,
      _input_dim := k._input_dim, _h_params := q } k._input_dim x1 x2
    (by simp; omega) rfl h1 h2
  refine ⟨g, ?_, hlen, ?_, ?_⟩
  · rw [set_h_params_eq Real.exp k q hk (by omega), Option.some_bind, hg]
  · intro i hlt
    rw [hi i hlt]
    simp only [hsum, getD_map_take Real.exp q k._input_dim i (by omega) hlt]
  · rw [hD]
    simp only [hsum]

/-- The loop of `set_h_params` stops when it runs past the end of `p`. -/
theorem foldlM_set_ell_short (exp : α → α) (p ell : List α) (m : Nat)
    (hp : p.length < m) (hl : m ≤ ell.length) :
    (List.range m).foldlM (set_ell exp p) ell = none := by
  induction m with
  | zero => omega
  | succ m ih =>
    rw [List.range_succ, List.foldlM_append]
    by_cases hlt : p.length < m
    · rw [ih hlt (by omega)]
      rfl
    · have hm : m ≤ p.length := by omega
      rw [foldlM_set_ell exp p ell m hm (by omega)]
      have hnone : p[m]? = none := List.getElem?_eq_none (by omega)
      simp [set_ell, hnone]

/-- On a vector `p` of at most `_input_dim` entries `set_h_params` returns no state. -/
theorem set_h_params_short [Field α] (exp : α → α) (k : SquaredExpARD α) (p : List α)
    (hk : k._ell.length = k._input_dim) (hp : p.length ≤ k._input_dim) :
    set_h_params exp k p = none := by
  unfold set_h_params
  by_cases hlt : p.length < k._input_dim
  · rw [foldlM_set_ell_short exp p k._ell k._input_dim hlt (by omega)]
  · rw [foldlM_set_ell exp p k._ell k._input_dim (by omega) (by omega)]
    have hnone : p[k._input_dim]? = none := List.getElem?_eq_none (by omega)
    simp [hnone]

/-- On vectors that do not both have the size of `_ell`, `operator()` returns no
value. -/
theorem operator_none [Field α] (exp : α → α) (k : SquaredExpARD α) (D : Nat)
    (x1 x2 : List α) (hk : k._ell.length = D) (hx : x1.length ≠ D ∨ x2.length ≠ D) :
    operator exp k x1 x2 = none := by
  unfold operator vsub cwiseQuotient
  by_cases h1 : x1.length = k._ell.length
  · have h2 : ¬ x1.length = x2.length := by
      intro e
      rcases hx with hx | hx
      · exact hx (by omega)
      · exact hx (by omega)
    simp only [h1, if_true]
    rw [h1] at h2
    simp only [h2, if_false]
  · simp only [h1, if_false]

/-- On vectors that do not both have the size of `_ell`, `grad` returns no vector. -/
theorem grad_none [Field α] (exp : α → α) (k : SquaredExpARD α) (D : Nat)
    (x1 x2 : List α) (hk : k._ell.length = D) (hx : x1.length ≠ D ∨ x2.length ≠ D) :
    grad exp k x1 x2 = none := by
  unfold grad vsub cwiseQuotient
  by_cases h12 : x1.length = x2.length
  · have h3 : ¬ (List.zipWith (fun u v => u - v) x1 x2).length = k._ell.length := by
      simp only [List.length_zipWith]
      rcases hx with hx | hx
      · omega
      · omega
    simp only [h12, if_true, h3, if_false]
  · simp only [h12, if_false]

/-- The scaled squared distance is non-negative. -/
theorem sum_sq_nonneg (D : Nat) (d l : Nat → ℝ) :
    0 ≤ ∑ i ∈ Finset.range D, (d i / l i) ^ 2 :=
  Finset.sum_nonneg (fun _ _ => sq_nonneg _)

end SquaredExpARD

end kernel

/-! Facts about the model of `double`. -/

namespace ieee

namespace Double

variable {R : Type} [LinearOrderedField R] [FloorRing R]

end Double

end ieee

/-! The claims. -/

namespace kernel

namespace SquaredExpARD

/-- C1: in every state reachable from `SquaredExpARD(D)` by `set_h_params` calls with
vectors of `D + 1` entries, and for all `x1`, `x2` of `D` entries, `operator()(x1, x2)`
returns `_sf2 * exp(-1/2 * Σ_{i<D} ((x1[i] - x2[i]) / ell()[i])^2)`. -/
theorem C1_operator_formula (D : Nat) (k : SquaredExpARD ℝ) (x1 x2 : List ℝ)
    (hk : Reachable Real.exp D k) (h1 : x1.length = D) (h2 : x2.length = D) :
    operator Real.exp k x1 x2
      = some (k._sf2 * Real.exp (-(1 / 2) *
          ∑ i ∈ Finset.range D, ((x1.getD i 0 - x2.getD i 0) / (ell k).getD i 0) ^ 2)) := by
  obtain ⟨p, hp, rfl⟩ := hk.shape
  exact operator_eq _ D x1 x2 (by simp; omega) h1 h2

/-- C1 at `D = 2`, after `set_h_params([1, 0, 3])` on a fresh kernel, with
`x1 = [1, 2]` and `x2 = [0, 5]`. -/
theorem C1_operator_formula_witness :
    Reachable Real.exp 2
        { _sf2 := Real.exp (2 * 3), _ell := [Real.exp 1, Real.exp 0], _input_dim := 2,
          _h_params := [1, 0, 3] } ∧
      operator Real.exp
        { _sf2 := Real.exp (2 * 3), _ell := [Real.exp 1, Real.exp 0], _input_dim := 2,
          _h_params := [1, 0, 3] } [1, 2] [0, 5]
        = some (Real.exp (2 * 3) * Real.exp (-(1 / 2) *
            ∑ i ∈ Finset.range 2, (([1, 2].getD i 0 - [0, 5].getD i 0) /
              [Real.exp 1, Real.exp 0].getD i 0) ^ 2)) :=
  have hr : Reachable Real.exp 2
      { _sf2 := Real.exp (2 * 3), _ell := [Real.exp 1, Real.exp 0], _input_dim := 2,
        _h_params := [1, 0, 3] } :=
    Reachable.step _ _ [1, 0, 3] (Reachable.init _ rfl) rfl rfl
  ⟨hr, C1_operator_formula 2 _ [1, 2] [0, 5] hr rfl rfl⟩

/-- C2: for `p` of `D + 1` entries, `x1`, `x2` of `D` entries and `j ≤ D`, the function
`f` that sends `t` to the value of `operator()(x1, x2)` after `set_h_params` on `p` with
entry `j` replaced by `t` is differentiable at `p[j]`, and its derivative there is
entry `j` of `grad(x1, x2)` after `set_h_params(p)`. -/
theorem C2_grad_is_derivative (D : Nat) (k : SquaredExpARD ℝ) (p x1 x2 : List ℝ) (j : Nat)
    (hk : Reachable Real.exp D k) (hp : p.length = D + 1)
    (h1 : x1.length = D) (h2 : x2.length = D) (hj : j ≤ D) :
    ∃ (f : ℝ → ℝ) (g : List ℝ) (gj : ℝ),
      (∀ t : ℝ, (set_h_params Real.exp k (p.set j t)).bind
          (fun k' => operator Real.exp k' x1 x2) = some (f t)) ∧
      (set_h_params Real.exp k p).bind (fun k' => grad Real.exp k' x1 x2) = some g ∧
      g[j]? = some gj ∧
      HasDerivAt f gj (p.getD j 0) := by
  obtain ⟨q, hq, rfl⟩ := hk.shape
  obtain ⟨g, hg, _, hi, hD⟩ := grad_after_set
    { _sf2 := Real.exp (2 * q.getD D 0), _ell := (q.take D).map Real.exp,
      _input_dim := D, _h_params := q } D p x1 x2 (by simp; omega) rfl hp h1 h2
  have hder := hasDerivAt_cov D (fun i => x1.getD i 0 - x2.getD i 0)
    (fun i => p.getD i 0) j
  refine ⟨_, g, _, ?_, hg, ?_, hder⟩
  · intro t
    rw [operator_after_set _ D (p.set j t) x1 x2 (by simp; omega) rfl (by simp [hp]) h1 h2]
    simp only [getD_set p j _ t (by omega)]
  · by_cases hlt : j < D
    · simp only [hlt, if_true]
      exact hi j hlt
    · have hjD : j = D := by omega
      subst hjD
      simp only [lt_irrefl, if_false, if_true]
      exact hD

/-- C2 at `D = 1` on a fresh kernel, with `p = [1, 3]`, `x1 = [0]`, `x2 = [1]` and
`j = 0`. -/
theorem C2_grad_is_derivative_witness :
    Reachable Real.exp 1
        { _sf2 := Real.exp (2 * 0), _ell := [Real.exp 0], _input_dim := 1,
          _h_params := [0, 0] } ∧
      ∃ (f : ℝ → ℝ) (g : List ℝ) (gj : ℝ),
        (∀ t : ℝ, (set_h_params Real.exp
            { _sf2 := Real.exp (2 * 0), _ell := [Real.exp 0], _input_dim := 1,
              _h_params := [0, 0] } ([1, 3].set 0 t)).bind
            (fun k' => operator Real.exp k' [0] [1]) = some (f t)) ∧
        (set_h_params Real.exp
            { _sf2 := Real.exp (2 * 0), _ell := [Real.exp 0], _input_dim := 1,
              _h_params := [0, 0] } [1, 3]).bind
            (fun k' => grad Real.exp k' [0] [1]) = some g ∧
        g[0]? = some gj ∧
        HasDerivAt f gj ([1, 3].getD 0 0) :=
  have hr : Reachable Real.exp 1
      { _sf2 := Real.exp (2 * 0), _ell := [Real.exp 0], _input_dim := 1,
        _h_params := [0, 0] } := Reachable.init _ rfl
  ⟨hr, C2_grad_is_derivative 1 _ [1, 3] [0] [1] 0 hr rfl rfl rfl (by decide)⟩

/-- C3: in every reachable state of dimension `D` and for `x1`, `x2` of `D` entries,
`grad(x1, x2)` is a vector of `D + 1` entries; entry `i < D` is
`((x1[i] - x2[i]) / ell()[i])^2 * operator()(x1, x2)` and the last entry is
`2 * operator()(x1, x2)`. -/
theorem C3_grad_entries (D : Nat) (k : SquaredExpARD ℝ) (x1 x2 : List ℝ)
    (hk : Reachable Real.exp D k) (h1 : x1.length = D) (h2 : x2.length = D) :
    ∃ (v : ℝ) (g : List ℝ),
      operator Real.exp k x1 x2 = some v ∧
      grad Real.exp k x1 x2 = some g ∧
      g.length = D + 1 ∧
      (∀ i, i < D →
        g[i]? = some (((x1.getD i 0 - x2.getD i 0) / (ell k).getD i 0) ^ 2 * v)) ∧
      g[D]? = some (2 * v) := by
  obtain ⟨p, hp, rfl⟩ := hk.shape
  obtain ⟨g, hg, hlen, hi, hD⟩ := grad_eq
    { _sf2 := Real.exp (2 * p.getD D 0), _ell := (p.take D).map Real.exp,
      _input_dim := D, _h_params := p } D x1 x2 (by simp; omega) rfl h1 h2
  exact ⟨_, g, operator_eq _ D x1 x2 (by simp; omega) h1 h2, hg, hlen, hi, hD⟩

/-- C3 on the example of the specification: `D = 1`, `p = [0, 0]`, `x1 = [0]`,
`x2 = [1]` give `operator() = exp(-1/2)` and `grad = [exp(-1/2), 2 * exp(-1/2)]`. -/
theorem C3_grad_entries_witness :
    Reachable Real.exp 1
        { _sf2 := Real.exp (2 * 0), _ell := [Real.exp 0], _input_dim := 1,
          _h_params := [0, 0] } ∧
      operator Real.exp
        { _sf2 := Real.exp (2 * 0), _ell := [Real.exp 0], _input_dim := 1,
          _h_params := [0, 0] } [0] [1] = some (Real.exp (-(1 / 2))) ∧
      grad Real.exp
        { _sf2 := Real.exp (2 * 0), _ell := [Real.exp 0], _input_dim := 1,
          _h_params := [0, 0] } [0] [1]
        = some [Real.exp (-(1 / 2)), 2 * Real.exp (-(1 / 2))] := by
  have hr : Reachable Real.exp 1
      { _sf2 := Real.exp (2 * 0), _ell := [Real.exp 0], _input_dim := 1,
        _h_params := [0, 0] } :=
    Reachable.step _ _ [0, 0] (Reachable.init _ rfl) rfl rfl
  obtain ⟨v, g, hv, hg, hlen, hi, hD⟩ := C3_grad_entries 1 _ [0] [1] hr rfl rfl
  have hv2 : v = Real.exp (-(1 / 2)) := by
    have e : operator Real.exp
        { _sf2 := Real.exp (2 * 0), _ell := [Real.exp 0], _input_dim := 1,
          _h_params := [0, 0] } [0] [1] = some (Real.exp (-(1 / 2))) := by
      simp [operator, vsub, cwiseQuotient, squaredNorm]
      norm_num
    rw [e] at hv
    exact (Option.some.inj hv).symm
  subst hv2
  refine ⟨hr, hv, ?_⟩
  rw [hg]
  have h0 := hi 0 (by decide)
  match g, hlen, h0, hD with
  | [a, b], _, h0, hD =>
    simp [ell] at h0 hD
    rw [h0, hD]
    norm_num

/-- C4, evaluated on the code: on a fresh kernel of dimension 1, `set_h_params([0, 1])`
followed by `h_params()` returns `[0, 2]`; the last entry is `log(_sf2) = 2 * p[D]`,
not `p[D]`, so the vector read back differs from the vector written. -/
theorem C4_h_params_after_set_differs :
    (construct Real.exp 1).bind (fun k =>
        (set_h_params Real.exp k [0, 1]).bind (fun k' => h_params Real.log k'))
      = some [0, 2] ∧
    (construct Real.exp 1).bind (fun k =>
        (set_h_params Real.exp k [0, 1]).bind (fun k' => h_params Real.log k'))
      ≠ some [0, 1] := by
  have e : (construct Real.exp 1).bind (fun k =>
        (set_h_params Real.exp k [0, 1]).bind (fun k' => h_params Real.log k'))
      = some [Real.log (Real.exp 0), Real.log (Real.exp (2 * 1))] := rfl
  rw [e]
  constructor
  · simp [Real.log_exp]
  · simp [Real.log_exp]

/-- C5, evaluated on the code: after `set_h_params([0, 1])` on a fresh kernel of
dimension 1 the signal variance `_sf2` is `exp 2` and `q = h_params()` is `[0, 2]`, so
`exp(2 * q[D]) = exp 4` is not `_sf2`; the last entry of `h_params()` is
`log(_sf2)`, not `log(sqrt(_sf2))`. -/
theorem C5_h_params_last_not_log_sqrt :
    ∃ k : SquaredExpARD ℝ,
      (construct Real.exp 1).bind (fun k0 => set_h_params Real.exp k0 [0, 1]) = some k ∧
      Reachable Real.exp 1 k ∧
      k._sf2 = Real.exp 2 ∧
      h_params Real.log k = some [0, 2] ∧
      k._sf2 ≠ Real.exp (2 * ([0, 2] : List ℝ).getD 1 0) ∧
      ([0, 2] : List ℝ).getD 1 0 ≠ Real.log (Real.sqrt k._sf2) := by
  refine ⟨{ _sf2 := Real.exp (2 * 1), _ell := [Real.exp 0], _input_dim := 1,
            _h_params := [0, 1] }, rfl,
    Reachable.step _ _ [0, 1] (Reachable.init _ rfl) rfl rfl, by simp, ?_, ?_, ?_⟩
  · have e : h_params Real.log
        { _sf2 := Real.exp (2 * 1), _ell := [Real.exp 0], _input_dim := 1,
          _h_params := [0, 1] }
        = some [Real.log (Real.exp 0), Real.log (Real.exp (2 * 1))] := rfl
    rw [e]
    simp [Real.log_exp]
  · simp only [List.getD_cons_succ, List.getD_cons_zero, ne_eq, Real.exp_eq_exp]
    norm_num
  · simp only [List.getD_cons_succ, List.getD_cons_zero]
    rw [Real.log_sqrt (Real.exp_pos _).le, Real.log_exp]
    norm_num

/-- C6: on a reachable kernel of dimension `D` and a vector `p` of `D + 1` entries,
`set_h_params(p)` returns a state with `ell()[i] = exp(p[i])` for `i < D`,
`_sf2 = exp(2 * p[D])`, `_h_params = p`, the size of `ell()` and `h_params_size()`
unchanged; and every reachable kernel of dimension `D` ends in that same state. -/
theorem C6_set_h_params_post (D : Nat) (k : SquaredExpARD ℝ) (p : List ℝ)
    (hk : Reachable Real.exp D k) (hp : p.length = D + 1) :
    ∃ k' : SquaredExpARD ℝ,
      set_h_params Real.exp k p = some k' ∧
      (∀ i, i < D → (ell k')[i]? = some (Real.exp (p.getD i 0))) ∧
      k'._sf2 = Real.exp (2 * p.getD D 0) ∧
      k'._h_params = p ∧
      (ell k').length = D ∧ (ell k').length = (ell k).length ∧
      h_params_size k' = D + 1 ∧ h_params_size k' = h_params_size k ∧
      k'._input_dim = k._input_dim ∧
      ∀ k2 : SquaredExpARD ℝ, Reachable Real.exp D k2 →
        set_h_params Real.exp k2 p = some k' := by
  obtain ⟨q, hq, rfl⟩ := hk.shape
  refine ⟨{ _sf2 := Real.exp (2 * p.getD D 0), _ell := (p.take D).map Real.exp,
            _input_dim := D, _h_params := p }, ?_, ?_, rfl, rfl, ?_, ?_, ?_, ?_, rfl, ?_⟩
  · exact set_h_params_eq Real.exp _ p (by simp; omega) (by simp; omega)
  · intro i hi
    exact getElem?_map_take Real.exp p D i (by omega) hi
  · simp [ell]; omega
  · simp [ell]; omega
  · simp [h_params_size]; omega
  · simp [h_params_size]; omega
  · intro k2 hk2
    obtain ⟨q2, hq2, rfl⟩ := hk2.shape
    exact set_h_params_eq Real.exp _ p (by simp; omega) (by simp; omega)

/-- C6 at `D = 2`: `set_h_params([1, 0, 3])` on a fresh kernel. -/
theorem C6_set_h_params_post_witness :
    Reachable Real.exp 2
        { _sf2 := Real.exp (2 * 0), _ell := [Real.exp 0, Real.exp 0], _input_dim := 2,
          _h_params := [0, 0, 0] } ∧
      ∃ k' : SquaredExpARD ℝ,
        set_h_params Real.exp
          { _sf2 := Real.exp (2 * 0), _ell := [Real.exp 0, Real.exp 0], _input_dim := 2,
            _h_params := [0, 0, 0] } [1, 0, 3] = some k' ∧
        k'._ell = [Real.exp 1, Real.exp 0] ∧ k'._sf2 = Real.exp (2 * 3) ∧
        k'._h_params = [1, 0, 3] := by
  have hr : Reachable Real.exp 2
      { _sf2 := Real.exp (2 * 0), _ell := [Real.exp 0, Real.exp 0], _input_dim := 2,
        _h_params := [0, 0, 0] } := Reachable.init _ rfl
  obtain ⟨k', hs, _, hsf, hh, _⟩ := C6_set_h_params_post 2 _ [1, 0, 3] hr rfl
  refine ⟨hr, k', hs, ?_, hsf, hh⟩
  have e : set_h_params Real.exp
      { _sf2 := Real.exp (2 * 0), _ell := [Real.exp 0, Real.exp 0], _input_dim := 2,
        _h_params := [0, 0, 0] } [1, 0, 3]
      = some { _sf2 := Real.exp (2 * 3), _ell := [Real.exp 1, Real.exp 0],
               _input_dim := 2, _h_params := [1, 0, 3] } := rfl
  rw [e] at hs
  rw [← Option.some.inj hs]

/-- C7: in every state reachable from `SquaredExpARD(D)` by `set_h_params` calls with
real vectors of `D + 1` entries, `ell()` has `D` entries, each strictly positive, and
`_sf2` is strictly positive. -/
theorem C7_positivity (D : Nat) (k : SquaredExpARD ℝ) (hk : Reachable Real.exp D k) :
    (ell k).length = D ∧
    (∀ i, i < D → ∃ v : ℝ, (ell k)[i]? = some v ∧ 0 < v) ∧
    0 < k._sf2 := by
  obtain ⟨p, hp, rfl⟩ := hk.shape
  refine ⟨by simp [ell]; omega, ?_, Real.exp_pos _⟩
  intro i hi
  exact ⟨_, getElem?_map_take Real.exp p D i (by omega) hi, Real.exp_pos _⟩

/-- C7 at `D = 1`, after `set_h_params([-5, -7])` on a fresh kernel. -/
theorem C7_positivity_witness :
    Reachable Real.exp 1
        { _sf2 := Real.exp (2 * -7), _ell := [Real.exp (-5)], _input_dim := 1,
          _h_params := [-5, -7] } ∧
      (0 : ℝ) < Real.exp (-5) ∧ (0 : ℝ) < Real.exp (2 * -7) := by
  have hr : Reachable Real.exp 1
      { _sf2 := Real.exp (2 * -7), _ell := [Real.exp (-5)], _input_dim := 1,
        _h_params := [-5, -7] } :=
    Reachable.step _ _ [-5, -7] (Reachable.init _ rfl) rfl rfl
  obtain ⟨_, hi, hs⟩ := C7_positivity 1 _ hr
  obtain ⟨v, hv, hpos⟩ := hi 0 (by decide)
  have hv2 : v = Real.exp (-5) := by
    simp [ell] at hv
    exact hv.symm
  subst hv2
  exact ⟨hr, hpos, hs⟩

/-- C8: a freshly constructed `SquaredExpARD(D)` has `D` length-scales all equal to 1,
signal variance 1, `h_params()` the zero vector of `D + 1` entries, and
`operator()(x1, x2) = exp(-1/2 * Σ_i (x1[i] - x2[i])^2)` for `x1`, `x2` of `D`
entries. -/
theorem C8_default_state (D : Nat) :
    ∃ k : SquaredExpARD ℝ,
      construct Real.exp D = some k ∧
      (ell k).length = D ∧
      (∀ i, i < D → (ell k)[i]? = some 1) ∧
      k._sf2 = 1 ∧
      h_params Real.log k = some (List.replicate (D + 1) 0) ∧
      ∀ x1 x2 : List ℝ, x1.length = D → x2.length = D →
        operator Real.exp k x1 x2
          = some (Real.exp (-(1 / 2) *
              ∑ i ∈ Finset.range D, (x1.getD i 0 - x2.getD i 0) ^ 2)) := by
  have hz : ∀ i, (List.replicate (D + 1) (0 : ℝ)).getD i 0 = 0 := by
    intro i
    rw [List.getD_eq_getElem?_getD, List.getElem?_replicate]
    by_cases h : i < D + 1
    · simp [h]
    · simp [h]
  refine ⟨_, construct_eq Real.exp D, by simp [ell], ?_, ?_, ?_, ?_⟩
  · intro i hi
    rw [show (ell { _sf2 := Real.exp (2 * (List.replicate (D + 1) (0 : ℝ)).getD D 0),
                    _ell := ((List.replicate (D + 1) (0 : ℝ)).take D).map Real.exp,
                    _input_dim := D,
                    _h_params := List.replicate (D + 1) 0 } : List ℝ)
          = ((List.replicate (D + 1) (0 : ℝ)).take D).map Real.exp from rfl,
      getElem?_map_take Real.exp _ D i (by simp) hi, hz, Real.exp_zero]
  · simp only [hz, mul_zero, Real.exp_zero]
  · simp only [h_params, hz, mul_zero, Real.exp_zero, Real.log_one, List.length_map,
      List.length_take, List.length_replicate, List.take_replicate, List.map_replicate]
    simp [List.replicate_succ']
  · intro x1 x2 h1 h2
    rw [operator_eq _ D x1 x2 (by simp) h1 h2]
    simp only [hz, mul_zero, Real.exp_zero, one_mul]
    congr 3
    apply Finset.sum_congr rfl
    intro i hi
    rw [getD_map_take Real.exp _ D i (by simp) (Finset.mem_range.mp hi), hz, Real.exp_zero,
      div_one]

/-- C8 at `D = 2`, with `x1 = [1, 2]` and `x2 = [0, 5]`. -/
theorem C8_default_state_witness :
    ∃ k : SquaredExpARD ℝ,
      construct Real.exp 2 = some k ∧
      k._ell = [Real.exp 0, Real.exp 0] ∧ k._sf2 = 1 ∧
      h_params Real.log k = some [0, 0, 0] ∧
      operator Real.exp k [1, 2] [0, 5]
        = some (Real.exp (-(1 / 2) *
            ∑ i ∈ Finset.range 2, (([1, 2] : List ℝ).getD i 0 - [0, 5].getD i 0) ^ 2)) := by
  obtain ⟨k, hc, _, _, hs, hh, ho⟩ := C8_default_state 2
  refine ⟨k, hc, ?_, hs, hh, ho [1, 2] [0, 5] rfl rfl⟩
  have e : construct Real.exp 2
      = some { _sf2 := Real.exp (2 * 0), _ell := [Real.exp 0, Real.exp 0],
               _input_dim := 2, _h_params := [0, 0, 0] } := rfl
  rw [e] at hc
  rw [← Option.some.inj hc]

/-- C9, evaluated on the code: on the state left by `set_h_params([0, 1])` on a fresh
kernel of dimension 1, `h_params()` returns `[0, 2]` and `set_h_params(h_params())`
changes the signal variance `_sf2` from `exp 2` to `exp 4`, so `operator()([0], [0])`
changes from `exp 2` to `exp 4`. -/
theorem C9_set_h_params_of_h_params_changes_sf2 :
    ∃ k q k2 : _,
      Reachable Real.exp 1 k ∧
      h_params Real.log k = some q ∧
      set_h_params Real.exp k q = some k2 ∧
      ell k2 = ell k ∧
      k._sf2 = Real.exp 2 ∧ k2._sf2 = Real.exp 4 ∧ k2._sf2 ≠ k._sf2 ∧
      operator Real.exp k [0] [0] = some (Real.exp 2) ∧
      operator Real.exp k2 [0] [0] = some (Real.exp 4) := by
  have hq : h_params Real.log
      { _sf2 := Real.exp (2 * 1), _ell := [Real.exp 0], _input_dim := 1,
        _h_params := [0, 1] } = some [0, 2] := by
    have e : h_params Real.log
        { _sf2 := Real.exp (2 * 1), _ell := [Real.exp 0], _input_dim := 1,
          _h_params := [0, 1] }
        = some [Real.log (Real.exp 0), Real.log (Real.exp (2 * 1))] := rfl
    rw [e]
    simp [Real.log_exp]
  refine ⟨{ _sf2 := Real.exp (2 * 1), _ell := [Real.exp 0], _input_dim := 1,
            _h_params := [0, 1] }, [0, 2],
          { _sf2 := Real.exp (2 * 2), _ell := [Real.exp 0], _input_dim := 1,
            _h_params := [0, 2] },
    Reachable.step _ _ [0, 1] (Reachable.init _ rfl) rfl rfl, hq, rfl, rfl, by simp,
    by norm_num, ?_, ?_, ?_⟩
  · simp only [ne_eq, Real.exp_eq_exp]
    norm_num
  · simp [operator, vsub, cwiseQuotient, squaredNorm]
  · simp [operator, vsub, cwiseQuotient, squaredNorm]
    norm_num

/-- C10: in every reachable state of dimension `D` and for `x1`, `x2` of `D` entries,
`operator()(x1, x2)` returns a value and `operator()(x2, x1)` returns the same. -/
theorem C10_symmetry (D : Nat) (k : SquaredExpARD ℝ) (x1 x2 : List ℝ)
    (hk : Reachable Real.exp D k) (h1 : x1.length = D) (h2 : x2.length = D) :
    ∃ v : ℝ, operator Real.exp k x1 x2 = some v ∧ operator Real.exp k x2 x1 = some v := by
  obtain ⟨p, hp, rfl⟩ := hk.shape
  refine ⟨_, operator_eq _ D x1 x2 (by simp; omega) h1 h2, ?_⟩
  rw [operator_eq _ D x2 x1 (by simp; omega) h2 h1]
  congr 4
  apply Finset.sum_congr rfl
  intro i _
  ring

/-- C10 at `D = 2`, after `set_h_params([1, 0, 3])` on a fresh kernel, with
`x1 = [1, 2]` and `x2 = [0, 5]`. -/
theorem C10_symmetry_witness :
    Reachable Real.exp 2
        { _sf2 := Real.exp (2 * 3), _ell := [Real.exp 1, Real.exp 0], _input_dim := 2,
          _h_params := [1, 0, 3] } ∧
      ∃ v : ℝ,
        operator Real.exp
          { _sf2 := Real.exp (2 * 3), _ell := [Real.exp 1, Real.exp 0], _input_dim := 2,
            _h_params := [1, 0, 3] } [1, 2] [0, 5] = some v ∧
        operator Real.exp
          { _sf2 := Real.exp (2 * 3), _ell := [Real.exp 1, Real.exp 0], _input_dim := 2,
            _h_params := [1, 0, 3] } [0, 5] [1, 2] = some v :=
  have hr : Reachable Real.exp 2
      { _sf2 := Real.exp (2 * 3), _ell := [Real.exp 1, Real.exp 0], _input_dim := 2,
        _h_params := [1, 0, 3] } :=
    Reachable.step _ _ [1, 0, 3] (Reachable.init _ rfl) rfl rfl
  ⟨hr, C10_symmetry 2 _ [1, 2] [0, 5] hr rfl rfl⟩

/-- C12: in every state reachable from `SquaredExpARD(D)` by `set_h_params` calls with
vectors of `D + 1` entries, `h_params_size()` is `D + 1`, `h_params()` returns a vector
of `h_params_size()` entries, and for `x1`, `x2` of `D` entries `grad(x1, x2)` returns
a vector of `h_params_size()` entries. -/
theorem C12_h_params_size (D : Nat) (k : SquaredExpARD ℝ) (x1 x2 : List ℝ)
    (hk : Reachable Real.exp D k) (h1 : x1.length = D) (h2 : x2.length = D) :
    h_params_size k = D + 1 ∧
    (∃ q : List ℝ, h_params Real.log k = some q ∧ q.length = h_params_size k) ∧
    (∃ g : List ℝ, grad Real.exp k x1 x2 = some g ∧ g.length = h_params_size k) := by
  obtain ⟨p, hp, rfl⟩ := hk.shape
  have hlen : ((p.take D).map Real.exp).length = D := by simp; omega
  refine ⟨by simp [h_params_size]; omega, ?_, ?_⟩
  · refine ⟨((p.take D).map Real.exp).map Real.log ++ [Real.log (Real.exp (2 * p.getD D 0))],
      by simp only [h_params, hlen, if_true], ?_⟩
    simp [h_params_size]
  · obtain ⟨g, hg, hgl, _⟩ := grad_eq
      { _sf2 := Real.exp (2 * p.getD D 0), _ell := (p.take D).map Real.exp,
        _input_dim := D, _h_params := p } D x1 x2 hlen rfl h1 h2
    exact ⟨g, hg, by simp only [h_params_size, hlen, hgl]⟩

/-- C12 at `D = 2`, after `set_h_params([1, 0, 3])` on a fresh kernel, with
`x1 = [1, 2]` and `x2 = [0, 5]`. -/
theorem C12_h_params_size_witness :
    Reachable Real.exp 2
        { _sf2 := Real.exp (2 * 3), _ell := [Real.exp 1, Real.exp 0], _input_dim := 2,
          _h_params := [1, 0, 3] } ∧
      h_params_size
        ({ _sf2 := Real.exp (2 * 3), _ell := [Real.exp 1, Real.exp 0], _input_dim := 2,
           _h_params := [1, 0, 3] } : SquaredExpARD ℝ) = 3 ∧
      ∃ g : List ℝ,
        grad Real.exp
          { _sf2 := Real.exp (2 * 3), _ell := [Real.exp 1, Real.exp 0], _input_dim := 2,
            _h_params := [1, 0, 3] } [1, 2] [0, 5] = some g ∧ g.length = 3 :=
  have hr : Reachable Real.exp 2
      { _sf2 := Real.exp (2 * 3), _ell := [Real.exp 1, Real.exp 0], _input_dim := 2,
        _h_params := [1, 0, 3] } :=
    Reachable.step _ _ [1, 0, 3] (Reachable.init _ rfl) rfl rfl
  ⟨hr, (C12_h_params_size 2 _ [1, 2] [0, 5] hr rfl rfl).1,
    (C12_h_params_size 2 _ [1, 2] [0, 5] hr rfl rfl).2.2⟩

end SquaredExpARD

end kernel

namespace model

namespace gp

namespace NoLFOpt

/-- C13: `NoLFOpt::operator()` returns on every model and hands it back identical; for
a model that holds a `SquaredExpARD` kernel, `h_params()`, `ell()` and `_sf2` of that
kernel are the same after the call as before. -/
theorem C13_no_lf_opt_identity (GP : Type) (kern : GP → kernel.SquaredExpARD ℝ) (m : GP) :
    operator m = m ∧
    kernel.SquaredExpARD.h_params Real.log (kern (operator m))
      = kernel.SquaredExpARD.h_params Real.log (kern m) ∧
    kernel.SquaredExpARD.ell (kern (operator m)) = kernel.SquaredExpARD.ell (kern m) ∧
    (kern (operator m))._sf2 = (kern m)._sf2 :=
  ⟨rfl, rfl, rfl, rfl⟩

end NoLFOpt

end gp

end model

namespace kernel

namespace SquaredExpARD

/-- C14, refuted as stated: on a fresh kernel of dimension 1 the vector `[0, 1, 5]`, of
3 entries instead of 2, is accepted by `set_h_params`; the call returns a state, whose
signal variance has changed from `exp(2 * 0)` to `exp(2 * 1)`, and the entry 5 is
ignored. -/
theorem C14_longer_vector_accepted :
    ∃ k k' : SquaredExpARD ℝ,
      Reachable Real.exp 1 k ∧
      ([0, 1, 5] : List ℝ).length ≠ 1 + 1 ∧
      set_h_params Real.exp k [0, 1, 5] = some k' ∧
      k'._sf2 = Real.exp (2 * 1) ∧ k._sf2 = Real.exp (2 * 0) ∧
      k'._sf2 ≠ k._sf2 := by
  refine ⟨{ _sf2 := Real.exp (2 * 0), _ell := [Real.exp 0], _input_dim := 1,
            _h_params := [0, 0] },
          { _sf2 := Real.exp (2 * 1), _ell := [Real.exp 0], _input_dim := 1,
            _h_params := [0, 1, 5] },
    Reachable.init _ rfl, by decide, rfl, rfl, rfl, ?_⟩
  simp only [ne_eq, Real.exp_eq_exp]
  norm_num

/-- C14, amended: on a reachable kernel of dimension `D`, `set_h_params(p)` returns no
state when `p` has fewer than `D + 1` entries (an index assertion stops it), and when
`p` has more than `D + 1` entries it is accepted: `ell()[i] = exp(p[i])` for `i < D`,
`_sf2 = exp(2 * p[D])`, the entries after `p[D]` are not read, and `_h_params` is the
whole of `p`. -/
theorem C14_set_h_params_other_sizes (D : Nat) (k : SquaredExpARD ℝ) (p : List ℝ)
    (hk : Reachable Real.exp D k) :
    (p.length < D + 1 → set_h_params Real.exp k p = none) ∧
    (D + 1 < p.length →
      set_h_params Real.exp k p
        = some { _sf2 := Real.exp (2 * p.getD D 0), _ell := (p.take D).map Real.exp,
                 _input_dim := D, _h_params := p }) := by
  obtain ⟨q, hq, rfl⟩ := hk.shape
  constructor
  · intro hp
    exact set_h_params_short Real.exp _ p (by simp; omega) (by simp; omega)
  · intro hp
    exact set_h_params_eq Real.exp _ p (by simp; omega) (by simp; omega)

/-- C14 amended, on a fresh kernel of dimension 1: `[0]` is refused and `[0, 1, 5]` is
accepted. -/
theorem C14_set_h_params_other_sizes_witness :
    Reachable Real.exp 1
        { _sf2 := Real.exp (2 * 0), _ell := [Real.exp 0], _input_dim := 1,
          _h_params := [0, 0] } ∧
      set_h_params Real.exp
        { _sf2 := Real.exp (2 * 0), _ell := [Real.exp 0], _input_dim := 1,
          _h_params := [0, 0] } [0] = none ∧
      set_h_params Real.exp
        { _sf2 := Real.exp (2 * 0), _ell := [Real.exp 0], _input_dim := 1,
          _h_params := [0, 0] } [0, 1, 5]
        = some { _sf2 := Real.exp (2 * ([0, 1, 5] : List ℝ).getD 1 0),
                 _ell := (([0, 1, 5] : List ℝ).take 1).map Real.exp,
                 _input_dim := 1, _h_params := [0, 1, 5] } :=
  have hr : Reachable Real.exp 1
      { _sf2 := Real.exp (2 * 0), _ell := [Real.exp 0], _input_dim := 1,
        _h_params := [0, 0] } := Reachable.init _ rfl
  ⟨hr, (C14_set_h_params_other_sizes 1 _ [0] hr).1 (by decide),
    (C14_set_h_params_other_sizes 1 _ [0, 1, 5] hr).2 (by decide)⟩

/-- C15: on a reachable kernel of dimension `D`, `operator()(x1, x2)` returns a value
exactly when `x1` and `x2` both have `D` entries; when `x1` or `x2` has another size
the call stops on an assertion and returns no number. -/
theorem C15_operator_dimension_check (D : Nat) (k : SquaredExpARD ℝ) (x1 x2 : List ℝ)
    (hk : Reachable Real.exp D k) :
    ((∃ v : ℝ, operator Real.exp k x1 x2 = some v) ↔ (x1.length = D ∧ x2.length = D)) ∧
    ((x1.length ≠ D ∨ x2.length ≠ D) → operator Real.exp k x1 x2 = none) := by
  obtain ⟨p, hp, rfl⟩ := hk.shape
  have hlen : ((p.take D).map Real.exp).length = D := by simp; omega
  have hnone : (x1.length ≠ D ∨ x2.length ≠ D) →
      operator Real.exp
        { _sf2 := Real.exp (2 * p.getD D 0), _ell := (p.take D).map Real.exp,
          _input_dim := D, _h_params := p } x1 x2 = none :=
    fun hx => operator_none Real.exp _ D x1 x2 hlen hx
  refine ⟨⟨?_, ?_⟩, hnone⟩
  · rintro ⟨v, hv⟩
    by_contra hne
    have hx : x1.length ≠ D ∨ x2.length ≠ D := by
      by_cases h1 : x1.length = D
      · right
        intro h2
        exact hne ⟨h1, h2⟩
      · left
        exact h1
    rw [hnone hx] at hv
    exact Option.noConfusion hv
  · rintro ⟨h1, h2⟩
    exact ⟨_, operator_eq _ D x1 x2 hlen h1 h2⟩

/-- C15 on a fresh kernel of dimension 1: `operator()([0], [1])` returns a value,
`operator()([0, 3], [1])` and `operator()([0], [1, 3])` return none. -/
theorem C15_operator_dimension_check_witness :
    Reachable Real.exp 1
        { _sf2 := Real.exp (2 * 0), _ell := [Real.exp 0], _input_dim := 1,
          _h_params := [0, 0] } ∧
      (∃ v : ℝ, operator Real.exp
        { _sf2 := Real.exp (2 * 0), _ell := [Real.exp 0], _input_dim := 1,
          _h_params := [0, 0] } [0] [1] = some v) ∧
      operator Real.exp
        { _sf2 := Real.exp (2 * 0), _ell := [Real.exp 0], _input_dim := 1,
          _h_params := [0, 0] } [0, 3] [1] = none ∧
      operator Real.exp
        { _sf2 := Real.exp (2 * 0), _ell := [Real.exp 0], _input_dim := 1,
          _h_params := [0, 0] } [0] [1, 3] = none :=
  have hr : Reachable Real.exp 1
      { _sf2 := Real.exp (2 * 0), _ell := [Real.exp 0], _input_dim := 1,
        _h_params := [0, 0] } := Reachable.init _ rfl
  ⟨hr, (C15_operator_dimension_check 1 _ [0] [1] hr).1.mpr ⟨rfl, rfl⟩,
    (C15_operator_dimension_check 1 _ [0, 3] [1] hr).2 (Or.inl (by decide)),
    (C15_operator_dimension_check 1 _ [0] [1, 3] hr).2 (Or.inr (by decide))⟩

/-- C16: on a reachable kernel of dimension `D`, `grad(x1, x2)` stops on an assertion
and returns no vector whenever `x1` or `x2` does not have `D` entries; it returns a
vector exactly when both have `D` entries. -/
theorem C16_grad_dimension_check (D : Nat) (k : SquaredExpARD ℝ) (x1 x2 : List ℝ)
    (hk : Reachable Real.exp D k) :
    ((x1.length ≠ D ∨ x2.length ≠ D) → grad Real.exp k x1 x2 = none) ∧
    ((x1.length = D ∧ x2.length = D) → ∃ g : List ℝ, grad Real.exp k x1 x2 = some g) := by
  obtain ⟨p, hp, rfl⟩ := hk.shape
  have hlen : ((p.take D).map Real.exp).length = D := by simp; omega
  constructor
  · intro hx
    exact grad_none Real.exp _ D x1 x2 hlen hx
  · rintro ⟨h1, h2⟩
    obtain ⟨g, hg, _⟩ := grad_eq
      { _sf2 := Real.exp (2 * p.getD D 0), _ell := (p.take D).map Real.exp,
        _input_dim := D, _h_params := p } D x1 x2 hlen rfl h1 h2
    exact ⟨g, hg⟩

/-- C16 on a fresh kernel of dimension 1: `grad([0, 3], [1, 4])`, `grad([0, 3], [1])`
and `grad([0], [1, 3])` return none. -/
theorem C16_grad_dimension_check_witness :
    Reachable Real.exp 1
        { _sf2 := Real.exp (2 * 0), _ell := [Real.exp 0], _input_dim := 1,
          _h_params := [0, 0] } ∧
      grad Real.exp
        { _sf2 := Real.exp (2 * 0), _ell := [Real.exp 0], _input_dim := 1,
          _h_params := [0, 0] } [0, 3] [1, 4] = none ∧
      grad Real.exp
        { _sf2 := Real.exp (2 * 0), _ell := [Real.exp 0], _input_dim := 1,
          _h_params := [0, 0] } [0, 3] [1] = none ∧
      grad Real.exp
        { _sf2 := Real.exp (2 * 0), _ell := [Real.exp 0], _input_dim := 1,
          _h_params := [0, 0] } [0] [1, 3] = none :=
  have hr : Reachable Real.exp 1
      { _sf2 := Real.exp (2 * 0), _ell := [Real.exp 0], _input_dim := 1,
        _h_params := [0, 0] } := Reachable.init _ rfl
  ⟨hr, (C16_grad_dimension_check 1 _ [0, 3] [1, 4] hr).1 (Or.inl (by decide)),
    (C16_grad_dimension_check 1 _ [0, 3] [1] hr).1 (Or.inl (by decide)),
    (C16_grad_dimension_check 1 _ [0] [1, 3] hr).1 (Or.inr (by decide))⟩

/-- C17, evaluated on the code: with `Params` giving `sigma_sq = 2`, a freshly
constructed kernel of dimension 1 has signal variance `_sf2 = 1`, not 2, and
`operator()([0], [0])` returns 1; the constructor does not read `sigma_sq`. -/
theorem C17_sigma_sq_not_read :
    ∃ k : SquaredExpARD ℝ,
      construct_with ({ k := 0, sigma_sq := 2 } : Params ℝ) Real.exp 1 = some k ∧
      k._sf2 = 1 ∧ k._sf2 ≠ 2 ∧
      operator Real.exp k [0] [0] = some 1 := by
  refine ⟨{ _sf2 := Real.exp (2 * 0), _ell := [Real.exp 0], _input_dim := 1,
            _h_params := [0, 0] }, rfl, by simp, by simp, ?_⟩
  simp [operator, vsub, cwiseQuotient, squaredNorm]

/-- C18: in every reachable state of dimension `D` and for `x1`, `x2` of `D` entries,
`0 < operator()(x1, x2) ≤ operator()(x1, x1) = _sf2`, every entry of `grad(x1, x2)` is
non-negative and its last entry is strictly positive. -/
theorem C18_bounds (D : Nat) (k : SquaredExpARD ℝ) (x1 x2 : List ℝ)
    (hk : Reachable Real.exp D k) (h1 : x1.length = D) (h2 : x2.length = D) :
    ∃ (v : ℝ) (g : List ℝ) (last : ℝ),
      operator Real.exp k x1 x2 = some v ∧
      operator Real.exp k x1 x1 = some k._sf2 ∧
      0 < v ∧ v ≤ k._sf2 ∧
      grad Real.exp k x1 x2 = some g ∧
      (∀ c, c ∈ g → 0 ≤ c) ∧
      g[D]? = some last ∧ 0 < last := by
  obtain ⟨p, hp, rfl⟩ := hk.shape
  have hlen : ((p.take D).map Real.exp).length = D := by simp; omega
  obtain ⟨g, hg, hgl, hi, hD⟩ := grad_eq
    { _sf2 := Real.exp (2 * p.getD D 0), _ell := (p.take D).map Real.exp,
      _input_dim := D, _h_params := p } D x1 x2 hlen rfl h1 h2
  have hS := sum_sq_nonneg D (fun i => x1.getD i 0 - x2.getD i 0)
    (fun i => ((p.take D).map Real.exp).getD i 0)
  have hvpos : 0 < Real.exp (2 * p.getD D 0) * Real.exp (-(1 / 2) *
      ∑ i ∈ Finset.range D, ((x1.getD i 0 - x2.getD i 0) /
        ((p.take D).map Real.exp).getD i 0) ^ 2) :=
    mul_pos (Real.exp_pos _) (Real.exp_pos _)
  refine ⟨_, g, _, operator_eq _ D x1 x2 hlen h1 h2, ?_, hvpos, ?_, hg, ?_, hD, ?_⟩
  · rw [operator_eq _ D x1 x1 hlen h1 h1]
    simp
  · have hle : Real.exp (-(1 / 2) *
        ∑ i ∈ Finset.range D, ((x1.getD i 0 - x2.getD i 0) /
          ((p.take D).map Real.exp).getD i 0) ^ 2) ≤ 1 := by
      rw [Real.exp_le_one_iff]
      linarith
    calc Real.exp (2 * p.getD D 0) * Real.exp (-(1 / 2) *
        ∑ i ∈ Finset.range D, ((x1.getD i 0 - x2.getD i 0) /
          ((p.take D).map Real.exp).getD i 0) ^ 2)
        ≤ Real.exp (2 * p.getD D 0) * 1 :=
          mul_le_mul_of_nonneg_left hle (Real.exp_pos _).le
      _ = Real.exp (2 * p.getD D 0) := mul_one _
  · intro c hc
    obtain ⟨i, hlt, e⟩ := List.mem_iff_getElem.mp hc
    have hget : g[i]? = some c := by rw [List.getElem?_eq_getElem hlt, e]
    by_cases hiD : i < D
    · rw [hi i hiD] at hget
      rw [← Option.some.inj hget]
      exact mul_nonneg (sq_nonneg _) hvpos.le
    · have hiD2 : i = D := by omega
      subst hiD2
      rw [hD] at hget
      rw [← Option.some.inj hget]
      linarith
  · linarith

/-- C18 at `D = 2`, after `set_h_params([1, 0, 3])` on a fresh kernel, with
`x1 = [1, 2]` and `x2 = [0, 5]`. -/
theorem C18_bounds_witness :
    Reachable Real.exp 2
        { _sf2 := Real.exp (2 * 3), _ell := [Real.exp 1, Real.exp 0], _input_dim := 2,
          _h_params := [1, 0, 3] } ∧
      ∃ (v : ℝ) (g : List ℝ) (last : ℝ),
        operator Real.exp
          { _sf2 := Real.exp (2 * 3), _ell := [Real.exp 1, Real.exp 0], _input_dim := 2,
            _h_params := [1, 0, 3] } [1, 2] [0, 5] = some v ∧
        0 < v ∧ v ≤ Real.exp (2 * 3) ∧
        grad Real.exp
          { _sf2 := Real.exp (2 * 3), _ell := [Real.exp 1, Real.exp 0], _input_dim := 2,
            _h_params := [1, 0, 3] } [1, 2] [0, 5] = some g ∧
        (∀ c, c ∈ g → 0 ≤ c) ∧ g[2]? = some last ∧ 0 < last := by
  have hr : Reachable Real.exp 2
      { _sf2 := Real.exp (2 * 3), _ell := [Real.exp 1, Real.exp 0], _input_dim := 2,
        _h_params := [1, 0, 3] } :=
    Reachable.step _ _ [1, 0, 3] (Reachable.init _ rfl) rfl rfl
  obtain ⟨v, g, last, hv, _, hpos, hle, hg, hnn, hl, hlp⟩ :=
    C18_bounds 2 _ [1, 2] [0, 5] hr rfl rfl
  exact ⟨hr, v, g, last, hv, hpos, hle, hg, hnn, hl, hlp⟩

/-- C19: for `p`, `p'` of `D + 1` entries with `p[j] ≤ p'[j]` for every `j ≤ D`, and
`x1`, `x2` of `D` entries, the value of `operator()(x1, x2)` after `set_h_params(p)`
is at most its value after `set_h_params(p')`. -/
theorem C19_monotone (D : Nat) (k : SquaredExpARD ℝ) (p p' x1 x2 : List ℝ)
    (hk : Reachable Real.exp D k) (hp : p.length = D + 1) (hp' : p'.length = D + 1)
    (h1 : x1.length = D) (h2 : x2.length = D)
    (hle : ∀ j, j ≤ D → p.getD j 0 ≤ p'.getD j 0) :
    ∃ v v' : ℝ,
      (set_h_params Real.exp k p).bind (fun k1 => operator Real.exp k1 x1 x2) = some v ∧
      (set_h_params Real.exp k p').bind (fun k1 => operator Real.exp k1 x1 x2) = some v' ∧
      v ≤ v' := by
  obtain ⟨q, hq, rfl⟩ := hk.shape
  have hlen : ((q.take D).map Real.exp).length = D := by simp; omega
  refine ⟨_, _, operator_after_set _ D p x1 x2 hlen rfl hp h1 h2,
    operator_after_set _ D p' x1 x2 hlen rfl hp' h1 h2, ?_⟩
  have hsum : ∑ i ∈ Finset.range D,
        ((x1.getD i 0 - x2.getD i 0) / Real.exp (p'.getD i 0)) ^ 2
      ≤ ∑ i ∈ Finset.range D,
        ((x1.getD i 0 - x2.getD i 0) / Real.exp (p.getD i 0)) ^ 2 := by
    apply Finset.sum_le_sum
    intro i hi
    have hiD : i ≤ D := Nat.le_of_lt (Finset.mem_range.mp hi)
    rw [div_pow, div_pow]
    apply div_le_div_of_nonneg_left (sq_nonneg _) (by positivity)
    have : Real.exp (p.getD i 0) ≤ Real.exp (p'.getD i 0) :=
      Real.exp_le_exp.mpr (hle i hiD)
    gcongr
  apply mul_le_mul _ _ (Real.exp_pos _).le (Real.exp_pos _).le
  · exact Real.exp_le_exp.mpr (by linarith [hle D (Nat.le_refl D)])
  · exact Real.exp_le_exp.mpr (by linarith)

/-- C19 at `D = 1` on a fresh kernel, with `p = [0, 1]`, `p' = [2, 1]`, `x1 = [0]` and
`x2 = [1]`. -/
theorem C19_monotone_witness :
    Reachable Real.exp 1
        { _sf2 := Real.exp (2 * 0), _ell := [Real.exp 0], _input_dim := 1,
          _h_params := [0, 0] } ∧
      ∃ v v' : ℝ,
        (set_h_params Real.exp
          { _sf2 := Real.exp (2 * 0), _ell := [Real.exp 0], _input_dim := 1,
            _h_params := [0, 0] } [0, 1]).bind
          (fun k1 => operator Real.exp k1 [0] [1]) = some v ∧
        (set_h_params Real.exp
          { _sf2 := Real.exp (2 * 0), _ell := [Real.exp 0], _input_dim := 1,
            _h_params := [0, 0] } [2, 1]).bind
          (fun k1 => operator Real.exp k1 [0] [1]) = some v' ∧
        v ≤ v' := by
  have hr : Reachable Real.exp 1
      { _sf2 := Real.exp (2 * 0), _ell := [Real.exp 0], _input_dim := 1,
        _h_params := [0, 0] } := Reachable.init _ rfl
  refine ⟨hr, C19_monotone 1 _ [0, 1] [2, 1] [0] [1] hr rfl rfl rfl rfl ?_⟩
  intro j hj
  interval_cases j
  · simp
  · simp

end SquaredExpARD

end kernel

end limbo
